import Mathlib

/-!
Verification development for a Redis-like in-memory key-value server
(protocol codec `resp.rs` + command engine `cmd.rs`).

Shallow embedding conventions:
- Rust byte buffers (`&[u8]`, `Vec<u8>`) are `List Nat` with entries < 256.
- Rust `String` values (always produced here via `String::from_utf8_lossy`)
  are modelled by their UTF-8 byte sequences, also `List Nat` (`Str`).
- The mutable read cursor `offset` into the input buffer is modelled by
  consuming the front of the list and returning the unread suffix.
- A Rust panic (out-of-bounds indexing, `expect`, `unreachable!`,
  `unimplemented!`) is modelled as `none` in an `Option` result.
- `SystemTime::now()` is modelled by an explicit `now : Nat` argument
  (milliseconds); `Duration::from_secs s` is `1000 * s` milliseconds and
  `Duration::from_millis m` is `m` milliseconds.
- Error payloads (`Result<_, String>`) keep the fixed message text of the
  source; dynamically formatted parts (`format!("... {}", x)`) are modelled
  by appending the dynamic bytes where they matter and by the fixed prefix
  otherwise.
-/

/-- Rust strings / byte buffers as lists of byte values. -/
abbrev Str := List Nat

/-- Byte encoding of an ASCII string literal (for ASCII characters the
UTF-8 byte equals the code point). All literals used below are ASCII. -/
def bytes (s : String) : Str := s.data.map Char.toNat

/-- UTF-8 continuation byte (`0x80..=0xBF`), as used by the Rust validator. -/
abbrev isCont (b : Nat) : Prop := 128 ≤ b ∧ b ≤ 191

/-- Valid (leading byte, first continuation) pairs for a 3-byte UTF-8
sequence, exactly the table in the Rust `run_utf8_validation`. -/
abbrev valid3pair (b c : Nat) : Prop :=
  (b = 224 ∧ 160 ≤ c ∧ c ≤ 191) ∨ (225 ≤ b ∧ b ≤ 236 ∧ isCont c) ∨
  (b = 237 ∧ 128 ≤ c ∧ c ≤ 159) ∨ (238 ≤ b ∧ b ≤ 239 ∧ isCont c)

/-- Valid (leading byte, first continuation) pairs for a 4-byte UTF-8
sequence, exactly the table in the Rust `run_utf8_validation`. -/
abbrev valid4pair (b c : Nat) : Prop :=
  (b = 240 ∧ 144 ≤ c ∧ c ≤ 191) ∨ (241 ≤ b ∧ b ≤ 243 ∧ isCont c) ∨
  (b = 244 ∧ 128 ≤ c ∧ c ≤ 143)

/-- UTF-8 validity of a byte sequence (`std::str::from_utf8` succeeds). -/
def utf8Valid : List Nat → Bool
  | [] => true
  | b :: rest =>
    if b < 128 then utf8Valid rest
    else if 194 ≤ b ∧ b ≤ 223 then
      match rest with
      | [] => false
      | c :: rest2 => if isCont c then utf8Valid rest2 else false
    else if 224 ≤ b ∧ b ≤ 239 then
      match rest with
      | [] => false
      | c :: rest2 =>
        if valid3pair b c then
          match rest2 with
          | [] => false
          | d :: rest3 => if isCont d then utf8Valid rest3 else false
        else false
    else if 240 ≤ b ∧ b ≤ 244 then
      match rest with
      | [] => false
      | c :: rest2 =>
        if valid4pair b c then
          match rest2 with
          | [] => false
          | d :: rest3 =>
            if isCont d then
              match rest3 with
              | [] => false
              | e :: rest4 => if isCont e then utf8Valid rest4 else false
            else false
        else false
    else false

/-- UTF-8 encoding of U+FFFD REPLACEMENT CHARACTER. -/
def fffd : List Nat := [239, 191, 189]

/-- Byte sequence of `String::from_utf8_lossy`: valid UTF-8 sequences are
copied; each maximal ill-formed subpart (per `Utf8Error::error_len`) is
replaced by one U+FFFD; an incomplete sequence at the end of input is
replaced by one U+FFFD. -/
def utf8Lossy : List Nat → List Nat
  | [] => []
  | b :: rest =>
    if b < 128 then b :: utf8Lossy rest
    else if 194 ≤ b ∧ b ≤ 223 then
      match rest with
      | [] => fffd
      | c :: rest2 =>
        if isCont c then b :: c :: utf8Lossy rest2
        else fffd ++ utf8Lossy (c :: rest2)
    else if 224 ≤ b ∧ b ≤ 239 then
      match rest with
      | [] => fffd
      | c :: rest2 =>
        if valid3pair b c then
          match rest2 with
          | [] => fffd
          | d :: rest3 =>
            if isCont d then b :: c :: d :: utf8Lossy rest3
            else fffd ++ utf8Lossy (d :: rest3)
        else fffd ++ utf8Lossy (c :: rest2)
    else if 240 ≤ b ∧ b ≤ 244 then
      match rest with
      | [] => fffd
      | c :: rest2 =>
        if valid4pair b c then
          match rest2 with
          | [] => fffd
          | d :: rest3 =>
            if isCont d then
              match rest3 with
              | [] => fffd
              | e :: rest4 =>
                if isCont e then b :: c :: d :: e :: utf8Lossy rest4
                else fffd ++ utf8Lossy (e :: rest4)
            else fffd ++ utf8Lossy (d :: rest3)
        else fffd ++ utf8Lossy (c :: rest2)
    else fffd ++ utf8Lossy rest

/-- Little-endian decimal digit bytes of `n` (fuel-driven helper for
`natToDec`; `fuel ≥ n` suffices). -/
def natToDecAux : Nat → Nat → List Nat
  | 0, _ => []
  | _ + 1, 0 => []
  | fuel + 1, n => (n % 10 + 48) :: natToDecAux fuel (n / 10)

/-- Decimal rendering of a natural number (bytes of the Display decimal format). -/
def natToDec (n : Nat) : List Nat :=
  if n = 0 then [48] else (natToDecAux n n).reverse

/-- Decimal rendering of a signed integer (bytes of the Display decimal format). -/
def intToDec (i : Int) : List Nat :=
  if i < 0 then 45 :: natToDec (-i).toNat else natToDec i.toNat

/-- Digit-string value: `some` iff the byte list is nonempty and all bytes
are ASCII digits (the digit part of the Rust integer `FromStr`). -/
def digitsToNat? (l : List Nat) : Option Nat :=
  if l ≠ [] ∧ ∀ d ∈ l, 48 ≤ d ∧ d ≤ 57 then
    some (l.foldl (fun a d => a * 10 + (d - 48)) 0)
  else none

/-- `str::parse::<i64>`: optional `+`/`-` sign, one or more digits, value
within the 64-bit signed range; anything else fails. -/
def parseI64 (s : Str) : Option Int :=
  match s with
  | [] => none
  | c :: rest =>
    if c = 43 then
      (digitsToNat? rest).bind fun n =>
        if n ≤ 2 ^ 63 - 1 then some (n : Int) else none
    else if c = 45 then
      (digitsToNat? rest).bind fun n =>
        if n ≤ 2 ^ 63 then some (-(n : Int)) else none
    else
      (digitsToNat? s).bind fun n =>
        if n ≤ 2 ^ 63 - 1 then some (n : Int) else none

/-- `str::parse::<u64>`: optional `+` sign (no `-`), one or more digits,
value within the 64-bit unsigned range. -/
def parseU64 (s : Str) : Option Nat :=
  match s with
  | [] => none
  | c :: rest =>
    if c = 43 then
      (digitsToNat? rest).bind fun n => if n ≤ 2 ^ 64 - 1 then some n else none
    else
      (digitsToNat? s).bind fun n => if n ≤ 2 ^ 64 - 1 then some n else none

/-- `str::parse::<isize>` (the target is 64-bit, so `isize` = `i64`). -/
def parseIsize (s : Str) : Option Int := parseI64 s

/-- `RespValue` from `resp.rs`. -/
inductive RespValue where
  | SimpleString : Str → RespValue
  | Error : Str → RespValue
  | Integer : Int → RespValue
  | BulkString : Str → RespValue
  | Array : List RespValue → RespValue
  | Null : RespValue

/-- `consume_crlf`: require the bytes at the cursor to be `\r\n` and skip
them; otherwise fail. -/
def consumeCrlf (data : List Nat) : Except String (List Nat) :=
  match data with
  | 13 :: 10 :: rest => .ok rest
  | _ => .error "Missing CRLF terminator"

/-- `parse_integer`: scan up to the next `\r`, require the scanned bytes to
be UTF-8 and parse them as an `i64`, then consume the CRLF terminator. -/
def parse_integer (data : List Nat) : Except String (Int × List Nat) :=
  let num_bytes := data.takeWhile (fun b => b != 13)
  let rest := data.dropWhile (fun b => b != 13)
  if utf8Valid num_bytes then
    match parseI64 num_bytes with
    | some n =>
      match consumeCrlf rest with
      | .ok rest2 => .ok (n, rest2)
      | .error e => .error e
    | none => .error "Invalid integer format"
  else .error "Invalid utf-8"

/-- `parse_bulk_string`: `$<len>\r\n<len bytes>\r\n`, with negative length
giving `Null`. -/
def parse_bulk_string (data : List Nat) : Except String (RespValue × List Nat) :=
  match data with
  | 36 :: tail =>
    match parse_integer tail with
    | .error e => .error e
    | .ok (length, rest) =>
      if length < 0 then .ok (.Null, rest)
      else
        let len := length.toNat
        if rest.length < len then .error "Incomplete bulk string data"
        else
          match consumeCrlf (rest.drop len) with
          | .error e => .error e
          | .ok rest2 => .ok (.BulkString (rest.take len), rest2)
  | _ => .error "Expected bulk string prefix '$'"

/-- The element loop of the `*` branch of `parse`: parse `n` consecutive
values with the given element parser. -/
def parseElems (pf : List Nat → Except String (RespValue × List Nat)) :
    Nat → List Nat → Except String (List RespValue × List Nat)
  | 0, data => .ok ([], data)
  | n + 1, data =>
    match pf data with
    | .error e => .error e
    | .ok (v, rest) =>
      match parseElems pf n rest with
      | .error e => .error e
      | .ok (vs, rest2) => .ok (v :: vs, rest2)

/-- `parse` from `resp.rs`, with an explicit recursion-depth bound `fuel`
(the source recursion is bounded by the nesting depth of the input; any
`fuel` at least that depth yields the source behavior). Dispatches on the
leading byte: `*` array (count ≥ 1 enforced), `$` bulk string, anything
else is an unsupported prefix. -/
def parseF : Nat → List Nat → Except String (RespValue × List Nat)
  | 0, _ => .error "recursion depth exhausted"
  | fuel + 1, data =>
    match data with
    | [] => .error "Empty data"
    | b :: tail =>
      if b = 42 then
        match parse_integer tail with
        | .error e => .error e
        | .ok (num_elements, rest) =>
          if num_elements < 1 then
            .error "Expected a command array of length atleast 1"
          else
            match parseElems (parseF fuel) num_elements.toNat rest with
            | .error e => .error e
            | .ok (elements, rest2) => .ok (.Array elements, rest2)
      else if b = 36 then parse_bulk_string data
      else .error "Unsupported or invalid RESP prefix"

mutual

/-- `impl Display for RespValue` (serialization to wire bytes). Note the
bulk-string branch writes `String::from_utf8_lossy(bytes)` after a length
prefix computed from the raw bytes. -/
def serialize : RespValue → List Nat
  | .SimpleString s => 43 :: (s ++ [13, 10])
  | .Error e => 45 :: (e ++ [13, 10])
  | .Integer i => 58 :: (intToDec i ++ [13, 10])
  | .BulkString b => 36 :: (natToDec b.length ++ [13, 10] ++ utf8Lossy b ++ [13, 10])
  | .Array elems => 42 :: (natToDec elems.length ++ [13, 10] ++ serializeList elems)
  | .Null => [36, 45, 49, 13, 10]

/-- Concatenated serialization of array elements, in order. -/
def serializeList : List RespValue → List Nat
  | [] => []
  | v :: vs => serialize v ++ serializeList vs

end

mutual

/-- Nesting-depth bound sufficient for `parseF` to re-read a serialized
value (1 for leaves, 1 + sum over elements for arrays). -/
def fuelNeed : RespValue → Nat
  | .Array elems => 1 + fuelNeedList elems
  | _ => 1

/-- Sum of `fuelNeed` over a list of values. -/
def fuelNeedList : List RespValue → Nat
  | [] => 0
  | v :: vs => fuelNeed v + fuelNeedList vs

end

/-- The fragment of `RespValue` that the codec can round-trip: `Null`,
`BulkString`s whose bytes are unchanged by UTF-8-lossy conversion (and of
length below the `i64` range used by the wire length field), and nonempty
`Array`s of such values (the parser rejects arrays of length < 1). -/
inductive Good : RespValue → Prop
  | null : Good .Null
  | bulk {b : Str} : utf8Lossy b = b → b.length < 2 ^ 63 → Good (.BulkString b)
  | arr {elems : List RespValue} : (∀ v ∈ elems, Good v) →
      1 ≤ elems.length → elems.length < 2 ^ 63 → Good (.Array elems)

/-- `Expiration` from `cmd.rs` (`EX` seconds / `PX` milliseconds). -/
inductive Expiration where
  | Seconds : Nat → Expiration
  | Milliseconds : Nat → Expiration

/-- The `Duration` built from an `Expiration`, in milliseconds. -/
def durationMillis : Expiration → Nat
  | .Seconds s => 1000 * s
  | .Milliseconds m => m

/-- `RedisValue` from `cmd.rs`. -/
inductive RedisValue where
  | String : Str → RedisValue
  | List : List Str → RedisValue

/-- `ValueEntry` from `cmd.rs`: a stored value plus optional absolute
expiry timestamp (milliseconds). -/
structure ValueEntry where
  value : RedisValue
  expiry_time : Option Nat

/-- The executor field `HashMap<String, ValueEntry>`, as a lookup function. -/
abbrev Store := Str → Option ValueEntry

/-- `HashMap` insert / `entry(..).and_modify(replace).or_insert(..)`. -/
def Store.update (st : Store) (k : Str) (e : ValueEntry) : Store :=
  fun k2 => if k2 = k then some e else st k2

/-- `HashMap::remove`. -/
def Store.remove (st : Store) (k : Str) : Store :=
  fun k2 => if k2 = k then none else st k2

/-- `CommandExecutor::set`: unconditionally store `TextValue(value)` with
expiry `now + duration` when an expiration option is given (the source line
`and_modify(*v = entry).or_insert(entry)` replaces any previous entry). -/
def CommandExecutor.set (st : Store) (now : Nat) (key value : Str)
    (expiry_opt : Option Expiration) : Store :=
  Store.update st key ⟨.String value, expiry_opt.map (fun a => now + durationMillis a)⟩

/-- The per-value loop of `CommandExecutor::rpush`: for each value, append
to an existing list entry (keeping its expiry), hit `unreachable!` (`none`)
on a text entry, or insert a fresh one-element list with the computed
expiry. -/
def CommandExecutor.rpushLoop (key : Str) (expiry_time : Option Nat) :
    Store → List Str → Option Store
  | st, [] => some st
  | st, v :: rest =>
    match st key with
    | some entry =>
      match entry.value with
      | .List buf =>
        CommandExecutor.rpushLoop key expiry_time
          (Store.update st key ⟨.List (buf ++ [v]), entry.expiry_time⟩) rest
      | .String _ => none
    | none =>
      CommandExecutor.rpushLoop key expiry_time
        (Store.update st key ⟨.List [v], expiry_time⟩) rest

/-- `CommandExecutor::rpush`. -/
def CommandExecutor.rpush (st : Store) (now : Nat) (key : Str)
    (values : List Str) (expiry_opt : Option Expiration) : Option Store :=
  CommandExecutor.rpushLoop key (expiry_opt.map (fun a => now + durationMillis a)) st values

/-- `CommandExecutor::lpush`: splice the given values at the front of an
existing list entry (keeping its expiry), hit `unreachable!` (`none`) on a
text entry, or insert the values as a fresh list with the computed
expiry. -/
def CommandExecutor.lpush (st : Store) (now : Nat) (key : Str)
    (values : List Str) (expiry_opt : Option Expiration) : Option Store :=
  match st key with
  | some entry =>
    match entry.value with
    | .List buf => some (Store.update st key ⟨.List (values ++ buf), entry.expiry_time⟩)
    | .String _ => none
  | none =>
    some (Store.update st key ⟨.List values, expiry_opt.map (fun a => now + durationMillis a)⟩)

/-- `CommandExecutor::get`: on a present entry whose expiry has passed
(`current_time >= expiry`), remove the key and report absent; otherwise
return the text value, hitting `unimplemented!` (`none`) on a list entry.
The source falls through to the value match both when there is no expiry
and when the expiry has not yet passed. -/
def CommandExecutor.get (st : Store) (now : Nat) (key : Str) :
    Option (Store × Option Str) :=
  match st key with
  | some entry =>
    match entry.expiry_time with
    | some expiry =>
      if expiry ≤ now then some (Store.remove st key, none)
      else
        match entry.value with
        | .String val => some (st, some val)
        | .List _ => none
    | none =>
      match entry.value with
      | .String val => some (st, some val)
      | .List _ => none
  | none => some (st, none)

/-- `CommandExecutor::llen`: length of a list entry as `i64`, 0 for an
absent key, `unreachable!` (`none`) on a text entry. -/
def CommandExecutor.llen (st : Store) (lst_key : Str) : Option Int :=
  match st lst_key with
  | some ventry =>
    match ventry.value with
    | .List buffer => some (buffer.length : Int)
    | .String _ => none
  | none => some 0

/-- The Rust `as usize` cast of a 64-bit signed value (wrapping modulo 2^64). -/
def usizeOfIsize (i : Int) : Nat := (i % (2 ^ 64 : Int)).toNat

/-- The `for idx in s..=e` collection loop of `lrange`, driven by the
iteration count `e + 1 - s` (0 when the usize range is empty): push
`buffer[idx]`, with out-of-bounds indexing a panic (`none`). -/
def collectFrom (buffer : List Str) : Nat → Nat → Option (List Str)
  | _, 0 => some []
  | s, count + 1 =>
    match buffer[s]? with
    | none => none
    | some x => (collectFrom buffer (s + 1) count).map (fun tl => x :: tl)

/-- `CommandExecutor::lrange`: clamp the signed indices against the list
length, return `[]` when the clamped start exceeds the clamped end, and
otherwise collect `buffer[start_idx..=end_idx]` after casting both clamped
indices to `usize`. A text entry hits `unimplemented!` (`none`); an absent
key yields `[]`. -/
def CommandExecutor.lrange (st : Store) (lst_key : Str) (start end_ : Int) :
    Option (List Str) :=
  match st lst_key with
  | some ventry =>
    match ventry.value with
    | .List buffer =>
      let len : Int := buffer.length
      let start_idx := if start < 0 then max 0 (len + start) else min (len - 1) start
      let end_idx := if end_ < 0 then max 0 (len + end_) else min (len - 1) end_
      if start_idx > end_idx then some []
      else
        let s := usizeOfIsize start_idx
        let e := usizeOfIsize end_idx
        collectFrom buffer s (e + 1 - s)
    | .String _ => none
  | none => some []

/-- Uppercasing of a byte (`to_uppercase` restricted to ASCII; every
dispatch target below is ASCII, where the Rust Unicode uppercasing agrees
with byte-wise ASCII uppercasing). -/
def upperByte (b : Nat) : Nat := if 97 ≤ b ∧ b ≤ 122 then b - 32 else b

/-- Byte-wise ASCII uppercasing of a string. -/
def toUpper (s : Str) : Str := s.map upperByte

/-- The element-collection loop shared by the RPUSH/LPUSH arms: every
argument must be a bulk string (`none` here means the arm returns the
`list element must be bulkstring` error). -/
def collectBulks : List RespValue → Option (List Str)
  | [] => some []
  | .BulkString b :: rest => (collectBulks rest).map (fun tl => utf8Lossy b :: tl)
  | _ :: _ => none

/-- ECHO arm of `visit_array` (`args` is the command array without the
command name). `array[1]` out of bounds is a panic (`none`). -/
def echoArm (st : Store) (args : List RespValue) : Option (Store × RespValue) :=
  match args[0]? with
  | none => none
  | some (RespValue.BulkString b) => some (st, .BulkString b)
  | some _ => some (st, .Error (bytes "expected ECHO <bulkstring>"))

/-- SET arm of `visit_array`: key and value are mandatory bulk strings
(`array[1]`/`array[2]` panic when missing), optionally followed by exactly
`EX <secs>` or `PX <msecs>`; the time argument is parsed with
`.expect("Invalid int")`, a panic (`none`) when it is not a `u64`. -/
def setArm (st : Store) (now : Nat) (args : List RespValue) :
    Option (Store × RespValue) :=
  match args[0]? with
  | none => none
  | some (RespValue.BulkString kb) =>
    match args[1]? with
    | none => none
    | some (RespValue.BulkString vb) =>
      match args[2]? with
      | none =>
        some (CommandExecutor.set st now (utf8Lossy kb) (utf8Lossy vb) none,
          .SimpleString (bytes "OK"))
      | some (RespValue.BulkString ob) =>
        if utf8Lossy ob = bytes "EX" then
          match args[3]? with
          | some (RespValue.BulkString tb) =>
            match parseU64 (utf8Lossy tb) with
            | some tsec =>
              some (CommandExecutor.set st now (utf8Lossy kb) (utf8Lossy vb)
                  (some (.Seconds tsec)), .SimpleString (bytes "OK"))
            | none => none
          | some _ => some (st, .Error (bytes "timeval must be bulkstring"))
          | none => some (st, .Error (bytes "EX <timeout-in-sec>"))
        else if utf8Lossy ob = bytes "PX" then
          match args[3]? with
          | some (RespValue.BulkString tb) =>
            match parseU64 (utf8Lossy tb) with
            | some tmsec =>
              some (CommandExecutor.set st now (utf8Lossy kb) (utf8Lossy vb)
                  (some (.Milliseconds tmsec)), .SimpleString (bytes "OK"))
            | none => none
          | some _ => some (st, .Error (bytes "timeval must be bulkstring"))
          | none => some (st, .Error (bytes "PX <timeout-in-msec>"))
        else some (st, .Error (bytes "Either EX/PX supported"))
      | some _ => some (st, .Error (bytes "Either EX/PX expected"))
    | some _ => some (st, .Error (bytes "value must be bulkstring"))
  | some _ => some (st, .Error (bytes "key must be bulkstring"))

/-- GET arm of `visit_array`. -/
def getArm (st : Store) (now : Nat) (args : List RespValue) :
    Option (Store × RespValue) :=
  match args[0]? with
  | none => none
  | some (RespValue.BulkString kb) =>
    match CommandExecutor.get st now (utf8Lossy kb) with
    | none => none
    | some (st2, some val) => some (st2, .BulkString val)
    | some (st2, none) => some (st2, .Null)
  | some _ => some (st, .Error (bytes "key must be bulkstring"))

/-- RPUSH arm of `visit_array`: collect the bulk-string arguments after the
key, push them, then reply with `llen` of the key. -/
def rpushArm (st : Store) (now : Nat) (args : List RespValue) :
    Option (Store × RespValue) :=
  match args[0]? with
  | none => none
  | some (RespValue.BulkString kb) =>
    match collectBulks (args.drop 1) with
    | none => some (st, .Error (bytes "list element must be bulkstring"))
    | some buffer =>
      match CommandExecutor.rpush st now (utf8Lossy kb) buffer none with
      | none => none
      | some st2 =>
        match CommandExecutor.llen st2 (utf8Lossy kb) with
        | none => none
        | some n => some (st2, .Integer n)
  | some _ => some (st, .Error (bytes "list name must be bulkstring"))

/-- LPUSH arm of `visit_array`: like RPUSH but the collected arguments are
reversed (`buffer.into_iter().rev().collect()`) before `lpush`. -/
def lpushArm (st : Store) (now : Nat) (args : List RespValue) :
    Option (Store × RespValue) :=
  match args[0]? with
  | none => none
  | some (RespValue.BulkString kb) =>
    match collectBulks (args.drop 1) with
    | none => some (st, .Error (bytes "list element must be bulkstring"))
    | some buffer =>
      match CommandExecutor.lpush st now (utf8Lossy kb) buffer.reverse none with
      | none => none
      | some st2 =>
        match CommandExecutor.llen st2 (utf8Lossy kb) with
        | none => none
        | some n => some (st2, .Integer n)
  | some _ => some (st, .Error (bytes "list name must be bulkstring"))

/-- LRANGE arm of `visit_array`: `array[2]`/`array[3]` are parsed as
`isize` with `.expect(..)` (panic, `none`, on failure); the collected
elements are returned as an Array of BulkStrings with the store
untouched. -/
def lrangeArm (st : Store) (args : List RespValue) : Option (Store × RespValue) :=
  match args[0]? with
  | none => none
  | some (RespValue.BulkString kb) =>
    match args[1]? with
    | none => none
    | some (RespValue.BulkString sb) =>
      match parseIsize (utf8Lossy sb) with
      | none => none
      | some start_idx =>
        match args[2]? with
        | none => none
        | some (RespValue.BulkString eb) =>
          match parseIsize (utf8Lossy eb) with
          | none => none
          | some end_idx =>
            match CommandExecutor.lrange st (utf8Lossy kb) start_idx end_idx with
            | none => none
            | some buffer => some (st, .Array (buffer.map .BulkString))
        | some _ => some (st, .Error (bytes "start_idx must be bulk string"))
    | some _ => some (st, .Error (bytes "start_idx must be bulk string"))
  | some _ => some (st, .Error (bytes "list name must be bulkstring"))

/-- `CommandExecutor::visit_array` (`impl RespVisitor for CommandExecutor`):
validate the command array, uppercase the lossy-decoded command name, and
dispatch. The result pairs the store after the command with the reply;
`none` is a panic. -/
def CommandExecutor.visit_array (st : Store) (now : Nat)
    (array : List RespValue) : Option (Store × RespValue) :=
  match array with
  | [] => some (st, .Error (bytes "Empty command array"))
  | arg0 :: args =>
    match arg0 with
    | .BulkString b =>
      let cmd_name := toUpper (utf8Lossy b)
      if cmd_name = bytes "PING" then some (st, .SimpleString (bytes "PONG"))
      else if cmd_name = bytes "ECHO" then echoArm st args
      else if cmd_name = bytes "SET" then setArm st now args
      else if cmd_name = bytes "GET" then getArm st now args
      else if cmd_name = bytes "RPUSH" then rpushArm st now args
      else if cmd_name = bytes "LPUSH" then lpushArm st now args
      else if cmd_name = bytes "LRANGE" then lrangeArm st args
      else some (st, .Error (bytes "Unknown command: " ++ cmd_name))
    | _ => some (st, .Error (bytes "Command must be a bulk string"))

/-- `RespValue::accept` with a `CommandExecutor` visitor: arrays dispatch
to `visit_array`, bulk strings to the default `visit_bulk_string` (reply
`Null`), anything else hits `unimplemented!` (`none`). -/
def RespValue.accept (st : Store) (now : Nat) (v : RespValue) :
    Option (Store × RespValue) :=
  match v with
  | .Array a => CommandExecutor.visit_array st now a
  | .BulkString _ => some (st, .Null)
  | _ => none

lemma Store.update_self (st : Store) (k : Str) (e : ValueEntry) :
    Store.update st k e k = some e := by
  simp [Store.update]

lemma Store.update_update (st : Store) (k : Str) (a b : ValueEntry) :
    Store.update (Store.update st k a) k b = Store.update st k b := by
  funext k2; simp only [Store.update]; split <;> rfl

lemma Store.update_eq_of_lookup (st : Store) (k : Str) (e : ValueEntry)
    (h : st k = some e) : Store.update st k e = st := by
  funext k2; simp only [Store.update]
  by_cases hk : k2 = k
  · subst hk; rw [h]; simp
  · simp [hk]

lemma visit_echo (st : Store) (now : Nat) (rest : List RespValue) :
    CommandExecutor.visit_array st now (.BulkString (bytes "ECHO") :: rest)
      = echoArm st rest := rfl

lemma visit_set (st : Store) (now : Nat) (rest : List RespValue) :
    CommandExecutor.visit_array st now (.BulkString (bytes "SET") :: rest)
      = setArm st now rest := rfl

lemma visit_get (st : Store) (now : Nat) (rest : List RespValue) :
    CommandExecutor.visit_array st now (.BulkString (bytes "GET") :: rest)
      = getArm st now rest := rfl

lemma visit_rpush (st : Store) (now : Nat) (rest : List RespValue) :
    CommandExecutor.visit_array st now (.BulkString (bytes "RPUSH") :: rest)
      = rpushArm st now rest := rfl

lemma visit_lpush (st : Store) (now : Nat) (rest : List RespValue) :
    CommandExecutor.visit_array st now (.BulkString (bytes "LPUSH") :: rest)
      = lpushArm st now rest := rfl

lemma visit_lrange (st : Store) (now : Nat) (rest : List RespValue) :
    CommandExecutor.visit_array st now (.BulkString (bytes "LRANGE") :: rest)
      = lrangeArm st rest := rfl

lemma collectBulks_map (vbs : List Str) :
    collectBulks (vbs.map RespValue.BulkString) = some (vbs.map utf8Lossy) := by
  induction vbs with
  | nil => rfl
  | cons v rest ih => simp [List.map_cons, collectBulks, ih]

lemma map_utf8Lossy_eq_self (vbs : List Str) (h : ∀ b ∈ vbs, utf8Lossy b = b) :
    vbs.map utf8Lossy = vbs := by
  induction vbs with
  | nil => rfl
  | cons v rest ih =>
    simp only [List.map_cons]
    rw [h v (by simp), ih (fun b hb => h b (by simp [hb]))]

lemma rpushLoop_list (key : Str) (exp : Option Nat) :
    ∀ (values : List Str) (st : Store) (buf : List Str) (eo : Option Nat),
      st key = some ⟨.List buf, eo⟩ →
      CommandExecutor.rpushLoop key exp st values
        = some (Store.update st key ⟨.List (buf ++ values), eo⟩) := by
  intro values
  induction values with
  | nil =>
    intro st buf eo h
    simp only [CommandExecutor.rpushLoop, List.append_nil]
    rw [Store.update_eq_of_lookup st key _ h]
  | cons v rest ih =>
    intro st buf eo h
    simp only [CommandExecutor.rpushLoop, h]
    rw [ih _ (buf ++ [v]) eo (Store.update_self ..)]
    rw [Store.update_update]
    simp

lemma rpushLoop_absent (key : Str) (exp : Option Nat) (st : Store)
    (h : st key = none) (v : Str) (rest : List Str) :
    CommandExecutor.rpushLoop key exp st (v :: rest)
      = some (Store.update st key ⟨.List (v :: rest), exp⟩) := by
  simp only [CommandExecutor.rpushLoop, h]
  rw [rpushLoop_list key exp rest _ [v] exp (Store.update_self ..)]
  rw [Store.update_update]
  simp

lemma llen_list (st : Store) (k : Str) (L : List Str) (eo : Option Nat)
    (h : st k = some ⟨.List L, eo⟩) :
    CommandExecutor.llen st k = some ((L.length : Nat) : Int) := by
  simp [CommandExecutor.llen, h]

lemma usizeOfIsize_of_bounds (i : Int) (h0 : 0 ≤ i) (h1 : i < 2 ^ 64) :
    usizeOfIsize i = i.toNat := by
  simp only [usizeOfIsize]
  omega

lemma collectFrom_ok (buffer : List Str) :
    ∀ (count s : Nat), s + count ≤ buffer.length →
      collectFrom buffer s count = some ((buffer.drop s).take count) := by
  intro count
  induction count with
  | zero => intro s h; simp [collectFrom]
  | succ c ih =>
    intro s h
    have hs : s < buffer.length := by omega
    simp only [collectFrom]
    rw [List.getElem?_eq_getElem hs, ih (s + 1) (by omega)]
    have hd : List.drop s buffer = buffer[s] :: List.drop (s + 1) buffer :=
      List.drop_eq_getElem_cons hs
    rw [hd, List.take_succ_cons]
    simp

lemma lrange_full (st : Store) (k : Str) (L : List Str) (eo : Option Nat)
    (h : st k = some ⟨.List L, eo⟩) (h64 : L.length < 2 ^ 64) :
    CommandExecutor.lrange st k 0 (-1) = some L := by
  cases L with
  | nil => simp only [CommandExecutor.lrange, h]; rfl
  | cons x xs =>
    simp only [CommandExecutor.lrange, h]
    have hpos : 1 ≤ (x :: xs).length := by simp
    have hlen : (1 : Int) ≤ ((x :: xs).length : Int) := by exact_mod_cast hpos
    have hlt : ((x :: xs).length : Int) - 1 < 2 ^ 64 := by
      have : ((x :: xs).length : Int) < 2 ^ 64 := by exact_mod_cast h64
      omega
    rw [if_neg (by omega : ¬ (0 : Int) < 0), if_pos (by omega : (-1 : Int) < 0)]
    rw [min_eq_right (by omega : (0 : Int) ≤ ((x :: xs).length : Int) - 1)]
    rw [show ((x :: xs).length : Int) + -1 = ((x :: xs).length : Int) - 1 by omega]
    rw [max_eq_right (by omega : (0 : Int) ≤ ((x :: xs).length : Int) - 1)]
    rw [if_neg (by omega : ¬ (0 : Int) > ((x :: xs).length : Int) - 1)]
    rw [usizeOfIsize_of_bounds 0 (by omega) (by omega),
        usizeOfIsize_of_bounds _ (by omega) hlt]
    have htn : (((x :: xs).length : Int) - 1).toNat = (x :: xs).length - 1 := by
      omega
    rw [htn]
    rw [collectFrom_ok _ _ _ (by omega)]
    simp only [Int.toNat_zero, List.drop_zero]
    rw [show (x :: xs).length - 1 + 1 - 0 = (x :: xs).length by omega]
    rw [List.take_length]

/-- C1: the claim that every recognized-but-invalid command array yields a
normal Error reply and never panics fails in the code: `["ECHO"]` (missing
argument) panics on the `array[1]` index, `["GET","l"]` with `l` holding a
list panics on `unimplemented!`, and `["SET","k","v","EX","abc"]` panics on
`.expect("Invalid int")`. (`none` is the model of a panic.) -/
theorem c1_recognized_invalid_panics :
    CommandExecutor.visit_array (fun _ => none) 0 [.BulkString (bytes "ECHO")] = none
    ∧ CommandExecutor.visit_array
        (fun k => if k = bytes "l" then some ⟨.List [bytes "a"], none⟩ else none) 0
        [.BulkString (bytes "GET"), .BulkString (bytes "l")] = none
    ∧ CommandExecutor.visit_array (fun _ => none) 0
        [.BulkString (bytes "SET"), .BulkString (bytes "k"), .BulkString (bytes "v"),
         .BulkString (bytes "EX"), .BulkString (bytes "abc")] = none :=
  ⟨rfl, rfl, rfl⟩

/-- C3 counterexample: on a store where `"l"` holds the 3-element list
`["a","b","c"]`, `LRANGE "l" 5 10` replies with the one-element array
`["c"]` (both indices clamp to `len - 1 = 2`), not with the empty array the
claim states. -/
theorem c3_lrange_5_10_counterexample :
    CommandExecutor.visit_array
      (fun k => if k = bytes "l" then some ⟨.List [bytes "a", bytes "b", bytes "c"], none⟩ else none) 0
      [.BulkString (bytes "LRANGE"), .BulkString (bytes "l"),
       .BulkString (bytes "5"), .BulkString (bytes "10")]
    = some ((fun k => if k = bytes "l" then some ⟨.List [bytes "a", bytes "b", bytes "c"], none⟩ else none),
        .Array [.BulkString (bytes "c")])
    ∧ RespValue.Array [.BulkString (bytes "c")] ≠ RespValue.Array [] :=
  ⟨rfl, by simp⟩

/-- C3 (amended): for every store in which a key holds a 3-element list,
`lrange` with start 5 and end 10 returns the one-element list holding the
last element. -/
theorem c3_lrange_5_10_last (st : Store) (k a b c : Str) (eo : Option Nat)
    (h : st k = some ⟨.List [a, b, c], eo⟩) :
    CommandExecutor.lrange st k 5 10 = some [c] := by
  simp only [CommandExecutor.lrange, h]
  norm_num [usizeOfIsize, collectFrom]
  rfl

/-- Witness for the amended C3 theorem at a concrete store. -/
theorem c3_lrange_5_10_last_witness :
    CommandExecutor.lrange
      (fun k => if k = bytes "l" then some ⟨.List [bytes "a", bytes "b", bytes "c"], none⟩ else none)
      (bytes "l") 5 10 = some [bytes "c"] :=
  c3_lrange_5_10_last _ _ _ _ _ _ rfl

/-- C4 counterexample: a key can hold an *empty* list (e.g. after an
`LPUSH` with no value arguments), and on it `lrange 0 0` panics — the
clamped indices are `min (len-1) idx = -1`, the `as usize` cast wraps to
`2^64 - 1`, and the loop indexes out of bounds — instead of returning the
slice the claim describes. -/
theorem c4_empty_list_counterexample :
    CommandExecutor.lrange
      (fun k => if k = bytes "l" then some ⟨.List [], none⟩ else none)
      (bytes "l") 0 0 = none
    ∧ (none : Option (List Str)) ≠ some [] :=
  ⟨rfl, by simp⟩

/-- C4 (amended to lists of length ≥ 1, with the Rust `Vec` length bound
`len < 2^64`): `lrange` computes `start_idx`/`end_idx` exactly as the claim
states, returns `[]` when `start_idx > end_idx`, and otherwise returns the
elements at positions `start_idx..=end_idx` in list order. -/
theorem c4_lrange_clamping (st : Store) (k : Str) (L : List Str) (eo : Option Nat)
    (start end_ : Int) (h : st k = some ⟨.List L, eo⟩) (h1 : 1 ≤ L.length)
    (h64 : L.length < 2 ^ 64) :
    CommandExecutor.lrange st k start end_ =
      (let len : Int := L.length
       let start_idx := if start < 0 then max 0 (len + start) else min (len - 1) start
       let end_idx := if end_ < 0 then max 0 (len + end_) else min (len - 1) end_
       if start_idx > end_idx then some []
       else some ((L.drop start_idx.toNat).take (end_idx.toNat - start_idx.toNat + 1))) := by
  simp only [CommandExecutor.lrange, h]
  have hL : (1 : Int) ≤ (L.length : Int) := by exact_mod_cast h1
  have hL64 : (L.length : Int) < 2 ^ 64 := by exact_mod_cast h64
  set si := if start < 0 then max 0 ((L.length : Int) + start)
            else min ((L.length : Int) - 1) start with hsi
  set ei := if end_ < 0 then max 0 ((L.length : Int) + end_)
            else min ((L.length : Int) - 1) end_ with hei
  have hsib : 0 ≤ si ∧ si ≤ (L.length : Int) - 1 := by
    rw [hsi]; split <;> constructor <;> omega
  have heib : 0 ≤ ei ∧ ei ≤ (L.length : Int) - 1 := by
    rw [hei]; split <;> constructor <;> omega
  by_cases hcmp : si > ei
  · rw [if_pos hcmp, if_pos hcmp]
  · rw [if_neg hcmp, if_neg hcmp]
    rw [usizeOfIsize_of_bounds si hsib.1 (by omega),
        usizeOfIsize_of_bounds ei heib.1 (by omega)]
    rw [collectFrom_ok _ _ _ (by omega)]
    rw [show ei.toNat + 1 - si.toNat = ei.toNat - si.toNat + 1 by omega]

/-- Witness for the amended C4 theorem at a concrete store. -/
theorem c4_lrange_clamping_witness :
    CommandExecutor.lrange
      (fun k => if k = bytes "l" then some ⟨.List [bytes "x"], none⟩ else none)
      (bytes "l") 0 0 = some [bytes "x"] := by
  rw [c4_lrange_clamping
    (fun k => if k = bytes "l" then some ⟨.List [bytes "x"], none⟩ else none)
    (bytes "l") [bytes "x"] none 0 0 rfl (by simp) (by simp)]
  rfl

/-- C5: the claim that RPUSH on a key holding a TextValue yields an Error
reply fails in the code: the `entry(..).and_modify(..)` closure hits
`unreachable!("Inconsitent list format")`, a panic (`none`), on a
`RedisValue::String` entry. -/
theorem c5_rpush_on_text_panics :
    CommandExecutor.visit_array
      (fun k => if k = bytes "k" then some ⟨.String (bytes "v"), none⟩ else none) 0
      [.BulkString (bytes "RPUSH"), .BulkString (bytes "k"), .BulkString (bytes "x")]
      = none :=
  rfl

/-- C6: for a key holding a text value with an expiry timestamp, GET at a
time at or past the timestamp removes the entry and replies Null, and GET
before the timestamp replies with the stored text and leaves the store
unchanged. -/
theorem c6_get_expiry (st : Store) (now : Nat) (kb s : Str) (e : Nat)
    (hk : utf8Lossy kb = kb)
    (h : st kb = some ⟨.String s, some e⟩) :
    (e ≤ now →
      CommandExecutor.visit_array st now [.BulkString (bytes "GET"), .BulkString kb]
        = some (Store.remove st kb, .Null))
    ∧ (now < e →
      CommandExecutor.visit_array st now [.BulkString (bytes "GET"), .BulkString kb]
        = some (st, .BulkString s)) := by
  refine ⟨fun hle => ?_, fun hlt => ?_⟩
  · rw [visit_get]
    simp only [getArm, List.getElem?_cons_zero, hk, CommandExecutor.get, h]
    rw [if_pos hle]
  · rw [visit_get]
    simp only [getArm, List.getElem?_cons_zero, hk, CommandExecutor.get, h]
    rw [if_neg (by omega : ¬ e ≤ now)]

/-- Witness for C6 at a concrete store, both at and before the expiry. -/
theorem c6_get_expiry_witness :
    (CommandExecutor.visit_array
        (fun k => if k = bytes "k" then some ⟨.String (bytes "v"), some 100⟩ else none) 100
        [.BulkString (bytes "GET"), .BulkString (bytes "k")]
      = some (Store.remove
          (fun k => if k = bytes "k" then some ⟨.String (bytes "v"), some 100⟩ else none)
          (bytes "k"), .Null))
    ∧ (CommandExecutor.visit_array
        (fun k => if k = bytes "k" then some ⟨.String (bytes "v"), some 100⟩ else none) 99
        [.BulkString (bytes "GET"), .BulkString (bytes "k")]
      = some ((fun k => if k = bytes "k" then some ⟨.String (bytes "v"), some 100⟩ else none),
          .BulkString (bytes "v"))) :=
  ⟨(c6_get_expiry _ 100 _ _ 100 (by decide) rfl).1 (by omega),
   (c6_get_expiry _ 99 _ _ 100 (by decide) rfl).2 (by omega)⟩

/-- C7: LPUSH prepends the reversed argument sequence at the front of the
list at the key (keeping the stored expiry), creates the reversed list when
the key is absent, and replies with the resulting length; in particular,
from an absent key, `LPUSH l a b c` then `LRANGE l 0 -1` yields
`["c","b","a"]`. -/
theorem c7_lpush_order (st : Store) (now : Nat) (kb : Str) (vbs : List Str)
    (L : List Str) (eo : Option Nat)
    (hk : utf8Lossy kb = kb) (hv : ∀ b ∈ vbs, utf8Lossy b = b) (hne : vbs ≠ []) :
    (st kb = some ⟨.List L, eo⟩ →
      CommandExecutor.visit_array st now
          (.BulkString (bytes "LPUSH") :: .BulkString kb :: vbs.map .BulkString)
        = some (Store.update st kb ⟨.List (vbs.reverse ++ L), eo⟩,
            .Integer ((vbs.length + L.length : Nat) : Int)))
    ∧ (st kb = none →
      CommandExecutor.visit_array st now
          (.BulkString (bytes "LPUSH") :: .BulkString kb :: vbs.map .BulkString)
        = some (Store.update st kb ⟨.List vbs.reverse, none⟩,
            .Integer ((vbs.length : Nat) : Int)))
    ∧ CommandExecutor.visit_array (fun _ => none) now
        [.BulkString (bytes "LPUSH"), .BulkString (bytes "l"), .BulkString (bytes "a"),
         .BulkString (bytes "b"), .BulkString (bytes "c")]
      = some (Store.update (fun _ => none) (bytes "l")
          ⟨.List [bytes "c", bytes "b", bytes "a"], none⟩, .Integer 3)
    ∧ CommandExecutor.visit_array
        (Store.update (fun _ => none) (bytes "l") ⟨.List [bytes "c", bytes "b", bytes "a"], none⟩) now
        [.BulkString (bytes "LRANGE"), .BulkString (bytes "l"),
         .BulkString (bytes "0"), .BulkString (bytes "-1")]
      = some (Store.update (fun _ => none) (bytes "l") ⟨.List [bytes "c", bytes "b", bytes "a"], none⟩,
          .Array [.BulkString (bytes "c"), .BulkString (bytes "b"), .BulkString (bytes "a")]) := by
  refine ⟨fun hmem => ?_, fun habs => ?_, rfl, rfl⟩
  · rw [visit_lpush]
    simp only [lpushArm, List.getElem?_cons_zero, List.drop_succ_cons, List.drop_zero]
    rw [collectBulks_map, map_utf8Lossy_eq_self vbs hv, hk]
    simp only [CommandExecutor.lpush, hmem]
    rw [llen_list _ _ _ _ (Store.update_self ..)]
    simp [Nat.add_comm]
  · rw [visit_lpush]
    simp only [lpushArm, List.getElem?_cons_zero, List.drop_succ_cons, List.drop_zero]
    rw [collectBulks_map, map_utf8Lossy_eq_self vbs hv, hk]
    simp only [CommandExecutor.lpush, habs, Option.map_none]
    rw [llen_list _ _ _ _ (Store.update_self ..)]
    simp

/-- Witness for C7 at a concrete store holding a list. -/
theorem c7_lpush_order_witness :
    CommandExecutor.visit_array
        (fun k => if k = bytes "l" then some ⟨.List [bytes "z"], some 9⟩ else none) 0
        [.BulkString (bytes "LPUSH"), .BulkString (bytes "l"),
         .BulkString (bytes "a"), .BulkString (bytes "b")]
      = some (Store.update
          (fun k => if k = bytes "l" then some ⟨.List [bytes "z"], some 9⟩ else none)
          (bytes "l") ⟨.List [bytes "b", bytes "a", bytes "z"], some 9⟩, .Integer 3) := by
  have h := (c7_lpush_order
    (fun k => if k = bytes "l" then some ⟨.List [bytes "z"], some 9⟩ else none) 0
    (bytes "l") [bytes "a", bytes "b"] [bytes "z"] (some 9)
    (by decide) (by decide) (by simp)).1 rfl
  simpa using h

/-- C8: RPUSH appends the arguments in listed order to the list at the key
(keeping the stored expiry), creates the list when the key is absent, and
replies with an Integer equal to the resulting list length. -/
theorem c8_rpush_append (st : Store) (now : Nat) (kb : Str) (vbs : List Str)
    (L : List Str) (eo : Option Nat)
    (hk : utf8Lossy kb = kb) (hv : ∀ b ∈ vbs, utf8Lossy b = b) (hne : vbs ≠ []) :
    (st kb = some ⟨.List L, eo⟩ →
      CommandExecutor.visit_array st now
          (.BulkString (bytes "RPUSH") :: .BulkString kb :: vbs.map .BulkString)
        = some (Store.update st kb ⟨.List (L ++ vbs), eo⟩,
            .Integer ((L.length + vbs.length : Nat) : Int)))
    ∧ (st kb = none →
      CommandExecutor.visit_array st now
          (.BulkString (bytes "RPUSH") :: .BulkString kb :: vbs.map .BulkString)
        = some (Store.update st kb ⟨.List vbs, none⟩,
            .Integer ((vbs.length : Nat) : Int))) := by
  refine ⟨fun hmem => ?_, fun habs => ?_⟩
  · rw [visit_rpush]
    simp only [rpushArm, List.getElem?_cons_zero, List.drop_succ_cons, List.drop_zero]
    rw [collectBulks_map, map_utf8Lossy_eq_self vbs hv, hk]
    simp only [CommandExecutor.rpush,
      rpushLoop_list kb (Option.map (fun a => now + durationMillis a) none) vbs st L eo hmem]
    rw [llen_list _ _ _ _ (Store.update_self ..)]
    simp
  · cases vbs with
    | nil => exact absurd rfl hne
    | cons v rest =>
      rw [visit_rpush]
      simp only [rpushArm, List.getElem?_cons_zero, List.drop_succ_cons, List.drop_zero]
      rw [collectBulks_map, map_utf8Lossy_eq_self (v :: rest) hv, hk]
      simp only [CommandExecutor.rpush,
        rpushLoop_absent kb (Option.map (fun a => now + durationMillis a) none) st habs v rest]
      rw [llen_list _ _ _ _ (Store.update_self ..)]
      simp

/-- Witness for C8 at a concrete store holding a list. -/
theorem c8_rpush_append_witness :
    CommandExecutor.visit_array
        (fun k => if k = bytes "l" then some ⟨.List [bytes "z"], none⟩ else none) 0
        [.BulkString (bytes "RPUSH"), .BulkString (bytes "l"),
         .BulkString (bytes "a"), .BulkString (bytes "b")]
      = some (Store.update
          (fun k => if k = bytes "l" then some ⟨.List [bytes "z"], none⟩ else none)
          (bytes "l") ⟨.List [bytes "z", bytes "a", bytes "b"], none⟩, .Integer 3) := by
  have h := (c8_rpush_append
    (fun k => if k = bytes "l" then some ⟨.List [bytes "z"], none⟩ else none) 0
    (bytes "l") [bytes "a", bytes "b"] [bytes "z"] none
    (by decide) (by decide) (by simp)).1 rfl
  simpa using h

/-- C9: LRANGE on an absent key replies with the empty Array, for any
parseable start and end arguments, and leaves the store unchanged. -/
theorem c9_lrange_absent_key (st : Store) (now : Nat) (kb sb eb : Str) (s e : Int)
    (hk : utf8Lossy kb = kb) (habs : st kb = none)
    (hs : parseIsize (utf8Lossy sb) = some s) (he : parseIsize (utf8Lossy eb) = some e) :
    CommandExecutor.visit_array st now
        [.BulkString (bytes "LRANGE"), .BulkString kb, .BulkString sb, .BulkString eb]
      = some (st, .Array []) := by
  rw [visit_lrange]
  simp only [lrangeArm, List.getElem?_cons_zero, List.getElem?_cons_succ, hs, he, hk]
  simp only [CommandExecutor.lrange, habs]
  simp

/-- Witness for C9 on the empty store. -/
theorem c9_lrange_absent_key_witness :
    CommandExecutor.visit_array (fun _ => none) 0
        [.BulkString (bytes "LRANGE"), .BulkString (bytes "nope"),
         .BulkString (bytes "-3"), .BulkString (bytes "7")]
      = some ((fun _ => none : Store), .Array []) :=
  c9_lrange_absent_key (fun _ => none) 0 (bytes "nope") (bytes "-3") (bytes "7")
    (-3) 7 (by decide) rfl (by decide) (by decide)

/-- C10: list reads never consult expiry — with a list entry whose expiry
is already in the past, `LRANGE key 0 -1` still replies with all elements
and leaves the store (and the entry) unchanged, and `llen` still counts
them. (`len < 2^64` is the Rust `Vec` length bound.) -/
theorem c10_list_reads_ignore_expiry (st : Store) (t : Nat) (kb : Str)
    (L : List Str) (e : Nat) (hk : utf8Lossy kb = kb)
    (h : st kb = some ⟨.List L, some e⟩) (hpast : e ≤ t)
    (h64 : L.length < 2 ^ 64) :
    CommandExecutor.visit_array st t
        [.BulkString (bytes "LRANGE"), .BulkString kb,
         .BulkString (bytes "0"), .BulkString (bytes "-1")]
      = some (st, .Array (L.map .BulkString))
    ∧ CommandExecutor.llen st kb = some ((L.length : Nat) : Int) := by
  constructor
  · rw [visit_lrange]
    simp only [lrangeArm, List.getElem?_cons_zero, List.getElem?_cons_succ, hk,
      show parseIsize (utf8Lossy (bytes "0")) = some 0 from by decide,
      show parseIsize (utf8Lossy (bytes "-1")) = some (-1) from by decide]
    simp only [lrange_full st kb L (some e) h h64]
  · exact llen_list st kb L (some e) h

/-- Witness for C10 at a concrete store with an expired list entry. -/
theorem c10_list_reads_ignore_expiry_witness :
    CommandExecutor.visit_array
        (fun k => if k = bytes "l" then some ⟨.List [bytes "x", bytes "y"], some 5⟩ else none) 9
        [.BulkString (bytes "LRANGE"), .BulkString (bytes "l"),
         .BulkString (bytes "0"), .BulkString (bytes "-1")]
      = some ((fun k => if k = bytes "l" then some ⟨.List [bytes "x", bytes "y"], some 5⟩ else none : Store),
          .Array [.BulkString (bytes "x"), .BulkString (bytes "y")])
    ∧ CommandExecutor.llen
        (fun k => if k = bytes "l" then some ⟨.List [bytes "x", bytes "y"], some 5⟩ else none)
        (bytes "l") = some 2 := by
  have h := c10_list_reads_ignore_expiry
    (fun k => if k = bytes "l" then some ⟨.List [bytes "x", bytes "y"], some 5⟩ else none) 9
    (bytes "l") [bytes "x", bytes "y"] 5 (by decide) rfl (by omega) (by simp)
  simpa using h

lemma natToDecAux_mem : ∀ (fuel n d : Nat), d ∈ natToDecAux fuel n → 48 ≤ d ∧ d ≤ 57 := by
  intro fuel
  induction fuel with
  | zero => intro n d hd; simp [natToDecAux] at hd
  | succ f ih =>
    intro n d hd
    match n with
    | 0 => simp [natToDecAux] at hd
    | m + 1 =>
      simp only [natToDecAux, List.mem_cons] at hd
      rcases hd with h | h
      · have : (m + 1) % 10 < 10 := Nat.mod_lt _ (by omega)
        omega
      · exact ih _ _ h

lemma natToDec_mem (n : Nat) : ∀ d ∈ natToDec n, 48 ≤ d ∧ d ≤ 57 := by
  intro d hd
  by_cases h0 : n = 0
  · subst h0; simp [natToDec] at hd; omega
  · simp only [natToDec, if_neg h0, List.mem_reverse] at hd
    exact natToDecAux_mem n n d hd

lemma natToDec_ne_nil (n : Nat) : natToDec n ≠ [] := by
  by_cases h0 : n = 0
  · subst h0; decide
  · simp only [natToDec, if_neg h0]
    match n, h0 with
    | m + 1, _ => simp [natToDecAux]

lemma natToDecAux_foldl : ∀ (fuel n a : Nat), n ≤ fuel →
    ((natToDecAux fuel n).reverse).foldl (fun x d => x * 10 + (d - 48)) a
      = a * 10 ^ (natToDecAux fuel n).length + n := by
  intro fuel
  induction fuel with
  | zero =>
    intro n a h
    have : n = 0 := by omega
    subst this
    simp [natToDecAux]
  | succ f ih =>
    intro n a h
    match n with
    | 0 => simp [natToDecAux]
    | m + 1 =>
      simp only [natToDecAux, List.reverse_cons, List.foldl_append, List.foldl_cons,
        List.foldl_nil, List.length_cons]
      rw [ih ((m + 1) / 10) a (by omega)]
      rw [pow_succ]
      have hdm := Nat.div_add_mod (m + 1) 10
      set p := 10 ^ (natToDecAux f ((m + 1) / 10)).length
      set q := (m + 1) / 10
      set r := (m + 1) % 10
      have hr : r + 48 - 48 = r := by omega
      rw [hr]
      have hra : (a * p + q) * 10 + r = a * (p * 10) + (10 * q + r) := by ring
      rw [hra, hdm]

lemma digitsToNat?_natToDec (n : Nat) : digitsToNat? (natToDec n) = some n := by
  by_cases h0 : n = 0
  · subst h0; decide
  · simp only [digitsToNat?]
    rw [if_pos ⟨natToDec_ne_nil n, natToDec_mem n⟩]
    simp only [natToDec, if_neg h0]
    rw [natToDecAux_foldl n n 0 (le_refl n)]
    simp

lemma parseI64_natToDec (n : Nat) (h : n < 2 ^ 63) :
    parseI64 (natToDec n) = some (n : Int) := by
  obtain ⟨d, t, hdt⟩ : ∃ d t, natToDec n = d :: t := by
    cases hnn : natToDec n with
    | nil => exact absurd hnn (natToDec_ne_nil n)
    | cons d t => exact ⟨d, t, rfl⟩
  have hd : 48 ≤ d ∧ d ≤ 57 := natToDec_mem n d (by rw [hdt]; simp)
  rw [hdt]
  simp only [parseI64]
  rw [if_neg (by omega : ¬ d = 43), if_neg (by omega : ¬ d = 45)]
  rw [← hdt, digitsToNat?_natToDec n]
  simp only [Option.some_bind]
  rw [if_pos (by omega : n ≤ 2 ^ 63 - 1)]

lemma takeWhile_no13 (l r : List Nat) (h : ∀ x ∈ l, x ≠ 13) :
    (l ++ 13 :: r).takeWhile (fun b => b != 13) = l := by
  induction l with
  | nil => simp
  | cons a t ih =>
    have ha : (a != 13) = true := by simpa using h a (by simp)
    simp only [List.cons_append, List.takeWhile_cons, ha, if_true]
    rw [ih (fun x hx => h x (by simp [hx]))]

lemma dropWhile_no13 (l r : List Nat) (h : ∀ x ∈ l, x ≠ 13) :
    (l ++ 13 :: r).dropWhile (fun b => b != 13) = 13 :: r := by
  induction l with
  | nil => simp
  | cons a t ih =>
    have ha : (a != 13) = true := by simpa using h a (by simp)
    simp only [List.cons_append, List.dropWhile_cons, ha, if_true]
    exact ih (fun x hx => h x (by simp [hx]))

lemma utf8Valid_cons_ascii (b : Nat) (t : List Nat) (hb : b < 128) :
    utf8Valid (b :: t) = utf8Valid t := by
  conv_lhs => rw [utf8Valid.eq_def]
  dsimp only
  rw [if_pos hb]

lemma utf8Valid_ascii (l : List Nat) (h : ∀ x ∈ l, x < 128) : utf8Valid l = true := by
  induction l with
  | nil => rfl
  | cons b t ih =>
    rw [utf8Valid_cons_ascii b t (h b (by simp))]
    exact ih (fun x hx => h x (by simp [hx]))

lemma parse_integer_natToDec (n : Nat) (h : n < 2 ^ 63) (r : List Nat) :
    parse_integer (natToDec n ++ 13 :: 10 :: r) = .ok ((n : Int), r) := by
  have hmem := natToDec_mem n
  simp only [parse_integer]
  rw [takeWhile_no13 _ _ (fun x hx => by have := hmem x hx; omega),
      dropWhile_no13 _ _ (fun x hx => by have := hmem x hx; omega)]
  rw [utf8Valid_ascii _ (fun x hx => by have := hmem x hx; omega)]
  rw [parseI64_natToDec n h]
  simp [consumeCrlf]

lemma fuelNeed_pos (v : RespValue) : 1 ≤ fuelNeed v := by
  cases v <;> simp [fuelNeed]

lemma fuelNeed_mem {v : RespValue} :
    ∀ {elems : List RespValue}, v ∈ elems → fuelNeed v ≤ fuelNeedList elems := by
  intro elems
  induction elems with
  | nil => intro h; simp at h
  | cons w ws ih =>
    intro h
    rcases List.mem_cons.mp h with h1 | h2
    · subst h1; simp [fuelNeedList]
    · have := ih h2
      simp only [fuelNeedList]
      omega

lemma parseElems_serialize (pf : List Nat → Except String (RespValue × List Nat)) :
    ∀ (elems : List RespValue),
      (∀ v ∈ elems, ∀ r, pf (serialize v ++ r) = .ok (v, r)) →
      ∀ rest, parseElems pf elems.length (serializeList elems ++ rest) = .ok (elems, rest) := by
  intro elems
  induction elems with
  | nil => intro _ rest; simp [parseElems, serializeList]
  | cons v vs ih =>
    intro h rest
    simp only [List.length_cons, serializeList, parseElems, List.append_assoc,
      h v (by simp) (serializeList vs ++ rest),
      ih (fun w hw r => h w (by simp [hw]) r) rest]

/-- Round-trip for every `Good` value, by induction on the fuel bound. -/
theorem roundtrip_fuel : ∀ (fuel : Nat) (v : RespValue), Good v → fuelNeed v ≤ fuel →
    ∀ rest, parseF fuel (serialize v ++ rest) = .ok (v, rest) := by
  intro fuel
  induction fuel with
  | zero =>
    intro v hg hf rest
    exfalso
    have := fuelNeed_pos v
    omega
  | succ f ih =>
    intro v hg hf rest
    cases hg with
    | null => rfl
    | @bulk b hb hlen =>
      simp only [serialize, hb, List.cons_append, List.append_assoc, List.nil_append]
      simp only [parseF]
      simp only [if_true, if_false]
      simp only [parse_bulk_string]
      simp only [parse_integer_natToDec b.length hlen (b ++ 13 :: 10 :: rest)]
      rw [if_neg (by omega : ¬ ((b.length : Int) < 0))]
      simp only [Int.toNat_natCast]
      rw [if_neg (by simp [List.length_append])]
      rw [List.take_left, List.drop_left]
      simp [consumeCrlf]
    | @arr elems hall h1 h2 =>
      simp only [serialize, List.cons_append, List.append_assoc, List.nil_append]
      simp only [parseF]
      simp only [if_true, if_false]
      simp only [parse_integer_natToDec elems.length h2 (serializeList elems ++ rest)]
      rw [if_neg (show ¬ ((elems.length : Int) < 1) by exact_mod_cast (by omega : ¬ (elems.length < 1)))]
      simp only [Int.toNat_natCast]
      simp only [parseElems_serialize (parseF f) elems
        (fun w hw r => ih w (hall w hw)
          (by have := fuelNeed_mem hw; simp only [fuelNeed] at hf; omega) r) rest]

/-- C2 counterexample: a `SimpleString` is constructible with valid field
constraints, but its serialization (bare, or wrapped in a command array)
is rejected by `parse`, which only accepts the `*` and `$` prefixes — so
`parse (serialize v)` cannot reproduce it. -/
theorem c2_simplestring_unparseable :
    parseF 9 (serialize (.SimpleString (bytes "OK"))) = .error "Unsupported or invalid RESP prefix"
    ∧ parseF 9 (serialize (.Array [.SimpleString (bytes "OK")]))
        = .error "Unsupported or invalid RESP prefix" :=
  ⟨rfl, rfl⟩

/-- C2 (amended): parsing the serialization of `v` (with any trailing
bytes) reproduces `v` exactly, for every `v` in the fragment the codec
actually supports round-tripping: `Null`, `BulkString`s with UTF-8-clean
content, and nonempty `Array`s of such values (`Good`); `fuel` is any
bound at least the nesting depth `fuelNeed v`. -/
theorem c2_roundtrip_good (v : RespValue) (hg : Good v) (fuel : Nat)
    (hf : fuelNeed v ≤ fuel) (rest : List Nat) :
    parseF fuel (serialize v ++ rest) = .ok (v, rest) :=
  roundtrip_fuel fuel v hg hf rest

/-- Witness for the amended C2 round-trip at a concrete array value. -/
theorem c2_roundtrip_good_witness :
    parseF 2 (serialize (.Array [.BulkString (bytes "hey")]) ++ []) =
      .ok (.Array [.BulkString (bytes "hey")], []) :=
  c2_roundtrip_good (.Array [.BulkString (bytes "hey")])
    (Good.arr
      (by
        intro v hv
        simp only [List.mem_singleton] at hv
        subst hv
        exact Good.bulk (by decide) (by decide))
      (by decide) (by decide))
    2 (by decide) []
